import Mathlib

/-!
Verification of the Gibbs-ringing removal pipeline (`dipy/denoise/gibbs.py`).

Embedding conventions:

* 2-D arrays are total functions `ℕ → ℕ → ℝ` (`Mat`); the dimensions of an
  array are passed separately to every operation that needs them, exactly as
  `numpy` carries a `shape` next to the data buffer.  Entries at indices
  outside the declared shape are irrelevant junk; theorems quantify over
  in-range indices where it matters.
* Floating point arithmetic is modelled by exact real arithmetic (`ℝ`),
  complex spectra by `ℂ`; `np.fft.fft2 / ifft2 / fftshift` are the textbook
  discrete Fourier transform / inverse / half-length roll, which is what
  `numpy` computes (up to floating-point rounding).
* Fallible code (`raise ValueError`, the `numpy` axis-bounds check of
  `np.swapaxes`, the `TypeError` of multiplying an array by `None`) is
  modelled with `Except String`.
* Volumes of arbitrary rank are `NdArr`: a shape list plus a total function
  from index lists to `ℝ`.
-/

noncomputable section

namespace Gibbs

/-- A real 2-D array: a total function from (row, column) indices.
Shape information is passed separately, as in `numpy`. -/
abbrev Mat := ℕ → ℕ → ℝ

/-- Model of `np.linspace(lo, hi, num)[i]` in exact real arithmetic:
`lo + (hi - lo) * i / (num - 1)`.  (For `num = 1`, real division by zero
yields `0`, so the value is `lo`, matching `numpy`.) -/
def linspace (lo hi : ℝ) (num : ℕ) (i : ℕ) : ℝ :=
  lo + (hi - lo) * i / ((num : ℝ) - 1)

/-!
## `_image_tv` (TV Estimator)

Source, axis-1 orientation (`xs` of width `W`, window `n_points = P`):

    xs = np.concatenate((xs[:, (-n_points-1):], xs, xs[:, 0:(n_points+1)]), axis=1)
    ptv = np.absolute(xs[:, (n_points+1):(-n_points-1)] - xs[:, (n_points+2):(-n_points)])
    ntv = np.absolute(xs[:, (n_points+1):(-n_points-1)] - xs[:, (n_points):(-n_points-2)])
    for n in range(1, n_points):
        ptv = ptv + np.absolute(xs[:, (n_points+1+n):(-n_points-1+n)] - xs[:, (n_points+2+n):(-n_points+n)])
        ntv = ntv + np.absolute(xs[:, (n_points+1-n):(-n_points-1-n)] - xs[:, (n_points-n):(-n_points-2-n)])

`tvExt P W row` is one row of the concatenated array: `numpy` slicing
truncates, so the prepended/appended blocks have `min (P+1) W` columns.
Column `j` of the slice `xs[:, a:b]` of the extension is entry `a + j`. -/

/-- One row of the periodic extension `np.concatenate((xs[:, -P-1:], xs, xs[:, 0:P+1]), axis=1)`. -/
def tvExt (P W : ℕ) (row : ℕ → ℝ) (j : ℕ) : ℝ :=
  if j < min (P + 1) W then row (W - min (P + 1) W + j)
  else if j < min (P + 1) W + W then row (j - min (P + 1) W)
  else row (j - min (P + 1) W - W)

/-- Column `j` of `ptv` for one row: the first difference is the assignment
before the loop, the sum over `Finset.Ico 1 P` is the `for n in range(1, n_points)` loop. -/
def ptvRow (P W : ℕ) (row : ℕ → ℝ) (j : ℕ) : ℝ :=
  |tvExt P W row (P + 1 + j) - tvExt P W row (P + 2 + j)| +
    ∑ n ∈ Finset.Ico 1 P,
      |tvExt P W row (P + 1 + n + j) - tvExt P W row (P + 2 + n + j)|

/-- Column `j` of `ntv` for one row, same shape as `ptvRow`. -/
def ntvRow (P W : ℕ) (row : ℕ → ℝ) (j : ℕ) : ℝ :=
  |tvExt P W row (P + 1 + j) - tvExt P W row (P + j)| +
    ∑ n ∈ Finset.Ico 1 P,
      |tvExt P W row (P + 1 - n + j) - tvExt P W row (P - n + j)|

/-- The function `_image_tv(x, axis, n_points)` for an array of shape `(R, C)`: returns
`(ptv, ntv)`.  For `axis = 0` the source transposes, computes along axis 1
and transposes back. -/
def image_tv (x : Mat) (R C : ℕ) (axis : Bool) (P : ℕ) : Mat × Mat :=
  if axis then
    (fun i j => ptvRow P C (x i) j, fun i j => ntvRow P C (x i) j)
  else
    (fun i j => ptvRow P R (fun t => x t j) i,
     fun i j => ntvRow P R (fun t => x t j) i)

/-!
## Discrete Fourier transform primitives (`np.fft`)

`np.fft.fft2` is the unnormalised 2-D DFT, `np.fft.ifft2` divides by the
number of samples, `np.fft.fftshift` rolls every axis by `n - n/2` so the
zero-frequency bin moves to the centre (`fftshift(x)[i] = x[(i + (n - n/2)) % n]`).
-/

/-- Unnormalised forward 2-D DFT, `np.fft.fft2`, on an `R × C` array. -/
def fft2 (R C : ℕ) (x : ℕ → ℕ → ℂ) : ℕ → ℕ → ℂ := fun u v =>
  ∑ a ∈ Finset.range R, ∑ b ∈ Finset.range C,
    x a b * Complex.exp (-2 * Real.pi * Complex.I *
      ((u : ℂ) * a / R + (v : ℂ) * b / C))

/-- Normalised inverse 2-D DFT, `np.fft.ifft2`, on an `R × C` array. -/
def ifft2 (R C : ℕ) (X : ℕ → ℕ → ℂ) : ℕ → ℕ → ℂ := fun a b =>
  (1 / ((R : ℂ) * C)) * ∑ u ∈ Finset.range R, ∑ v ∈ Finset.range C,
    X u v * Complex.exp (2 * Real.pi * Complex.I *
      ((u : ℂ) * a / R + (v : ℂ) * b / C))

/-- Both-axes half-length roll `np.fft.fftshift` of an `R × C` array. -/
def fftshift2 (R C : ℕ) (X : ℕ → ℕ → ℂ) : ℕ → ℕ → ℂ := fun u v =>
  X ((u + (R - R / 2)) % R) ((v + (C - C / 2)) % C)

/-!
## `_gibbs_removal_1d` (1D Line Corrector)

Source (axis-1 orientation; `xs` of shape `R × N`, window `P`):

    ssamp = np.linspace(0.02, 0.9, num=45)
    tvr, tvl = _image_tv(xs, axis=1, n_points=n_points)
    tvp = np.minimum(tvr, tvl); tvn = tvp.copy()
    isp = xs.copy(); isn = xs.copy()
    sp = np.zeros(xs.shape); sn = np.zeros(xs.shape)
    c = np.fft.fftshift(np.fft.fft2(xs))
    k = np.linspace(-N/2, N/2-1, num=N); k = (2.0j * np.pi * k) / N
    for s in ssamp:
        img_p = abs(np.fft.ifft2(np.fft.fftshift(c * np.exp(k*s)))); ...
        isp[tvp > tvs_p] = img_p[...]; sp[tvp > tvs_p] = s; tvp[tvp > tvs_p] = tvs_p[...]
        (and the same with exp(-k*s) for isn, sn, tvn)
    idx = np.nonzero(sp + sn)
    xs[idx] = (isp[idx] - isn[idx])/(sp[idx] + sn[idx])*sn[idx] + isn[idx]
-/

/-- The fixed shift grid `np.linspace(0.02, 0.9, num=45)`. -/
def ssamp : List ℝ := (List.range 45).map (fun n => linspace 0.02 0.9 45 n)

/-- The per-column complex frequency ramp `k = 2.0j * np.pi * linspace(-N/2, N/2-1, N) / N`. -/
def kvec (N : ℕ) (v : ℕ) : ℂ :=
  2 * Complex.I * Real.pi * (linspace (-(N : ℝ) / 2) ((N : ℝ) / 2 - 1) N v : ℝ) / N

/-- The mutable state of the shift search: best images, recorded shifts and
best TV scores for the positive and negative directions. -/
structure ShiftState where
  isp : Mat
  isn : Mat
  sp : Mat
  sn : Mat
  tvp : Mat
  tvn : Mat

/-- Pointwise minimum of the two `_image_tv` outputs along axis 1 (`np.minimum(tvsr, tvsl)`). -/
def tvMin (R N P : ℕ) (img : Mat) : Mat := fun i j =>
  min ((image_tv img R N true P).1 i j) ((image_tv img R N true P).2 i j)

/-- Magnitude image `abs(np.fft.ifft2(np.fft.fftshift(c * np.exp(ramp))))` where
`ramp v = kvec N v * s` (positive shift) or `-(kvec N v) * s` (negative shift). -/
def shiftedImage (R N : ℕ) (c : ℕ → ℕ → ℂ) (ramp : ℕ → ℂ) : Mat := fun i j =>
  Complex.abs (ifft2 R N (fftshift2 R N (fun u v => c u v * Complex.exp (ramp v))) i j)

/-- Positively shifted reconstruction `img_p = abs(ifft2(fftshift(c * np.exp(k*s))))`. -/
def posImage (R N : ℕ) (c : ℕ → ℕ → ℂ) (s : ℝ) : Mat :=
  shiftedImage R N c (fun v => kvec N v * (s : ℂ))

/-- Negatively shifted reconstruction `img_n = abs(ifft2(fftshift(c * np.exp(-k*s))))`. -/
def negImage (R N : ℕ) (c : ℕ → ℕ → ℂ) (s : ℝ) : Mat :=
  shiftedImage R N c (fun v => -(kvec N v) * (s : ℂ))

/-- One iteration of `for s in ssamp`: boolean-mask updates of
`isp, sp, tvp` (mask `tvp > tvs_p`, where `tvs_p = tvMin R N P (posImage R N c s)`)
and of `isn, sn, tvn` (mask `tvn > tvs_n`).
All three positive-direction updates use the mask computed from the incoming
`tvp`, as in the source (and likewise for the negative direction). -/
def shiftStep (R N P : ℕ) (c : ℕ → ℕ → ℂ) (st : ShiftState) (s : ℝ) : ShiftState :=
  { isp := fun i j => if tvMin R N P (posImage R N c s) i j < st.tvp i j then
      posImage R N c s i j else st.isp i j
    sp := fun i j => if tvMin R N P (posImage R N c s) i j < st.tvp i j then
      s else st.sp i j
    tvp := fun i j => if tvMin R N P (posImage R N c s) i j < st.tvp i j then
      tvMin R N P (posImage R N c s) i j else st.tvp i j
    isn := fun i j => if tvMin R N P (negImage R N c s) i j < st.tvn i j then
      negImage R N c s i j else st.isn i j
    sn := fun i j => if tvMin R N P (negImage R N c s) i j < st.tvn i j then
      s else st.sn i j
    tvn := fun i j => if tvMin R N P (negImage R N c s) i j < st.tvn i j then
      tvMin R N P (negImage R N c s) i j else st.tvn i j }

/-- The state before the loop: `isp = isn = xs`, `sp = sn = 0`,
`tvp = tvn = np.minimum(tvr, tvl)`. -/
def initState (R N P : ℕ) (xs : Mat) : ShiftState :=
  { isp := xs, isn := xs, sp := fun _ _ => 0, sn := fun _ _ => 0
    tvp := tvMin R N P xs, tvn := tvMin R N P xs }

/-- The shifted spectrum `c = np.fft.fftshift(np.fft.fft2(xs))`. -/
def spectrum (R N : ℕ) (xs : Mat) : ℕ → ℕ → ℂ :=
  fftshift2 R N (fft2 R N (fun i j => (xs i j : ℂ)))

/-- The search state after the first `m` trial shifts of the grid. -/
def stateAfter (R N P : ℕ) (xs : Mat) (m : ℕ) : ShiftState :=
  (ssamp.take m).foldl (shiftStep R N P (spectrum R N xs)) (initState R N P xs)

/-- The search state after the whole grid `ssamp` is exhausted. -/
def finalState (R N P : ℕ) (xs : Mat) : ShiftState :=
  ssamp.foldl (shiftStep R N P (spectrum R N xs)) (initState R N P xs)

/-- The final interpolation:
`idx = np.nonzero(sp + sn); xs[idx] = (isp[idx]-isn[idx])/(sp[idx]+sn[idx])*sn[idx] + isn[idx]`,
pixels outside `idx` keep their original value. -/
def interp (xs : Mat) (st : ShiftState) : Mat := fun i j =>
  if st.sp i j + st.sn i j ≠ 0 then
    (st.isp i j - st.isn i j) / (st.sp i j + st.sn i j) * st.sn i j + st.isn i j
  else xs i j

/-- Core of `_gibbs_removal_1d` in the axis-1 orientation, on an array of shape `R × N`. -/
def gibbs1dAux (R N P : ℕ) (xs : Mat) : Mat :=
  interp xs (finalState R N P xs)

/-- The function `_gibbs_removal_1d(x, axis, n_points)` on an array of shape `(R, C)`:
for `axis = 0` the source transposes, corrects along axis 1 and transposes back. -/
def gibbs_removal_1d (x : Mat) (R C : ℕ) (axis : Bool) (P : ℕ) : Mat :=
  if axis then gibbs1dAux R C P x
  else fun i j => gibbs1dAux C R P (fun a b => x b a) j i

/-!
## `_weights` (Weight Generator)

Source:

    G0 = np.zeros(shape); G1 = np.zeros(shape)
    k = np.linspace(-np.pi, np.pi, num=shape[0])
    K1, K0 = np.meshgrid(k[1:-1], k[1:-1])
    cosk0 = 1.0 + np.cos(K0); cosk1 = 1.0 + np.cos(K1)
    G1[1:-1, 1:-1] = cosk0 / (cosk0+cosk1)
    G0[1:-1, 1:-1] = cosk1 / (cosk0+cosk1)
    G1[1:-1, 0] = G1[1:-1, -1] = 1
    G1[0, 0] = G1[-1, -1] = G1[0, -1] = G1[-1, 0] = 1/2
    G0[0, 1:-1] = G0[-1, 1:-1] = 1
    G0[0, 0] = G0[-1, -1] = G0[0, -1] = G0[-1, 0] = 1/2

The single angular grid `k` has length `shape[0] = r`, so the interior
value block `cosk0 / (cosk0 + cosk1)` built by
`np.meshgrid(k[1:-1], k[1:-1])` (`K0[a,b] = k[1+a]`, `K1[a,b] = k[1+b]`)
has shape `(r-2, r-2)`, while its assignment targets `G1[1:-1, 1:-1]` of
shape `(r-2, c-2)`.  `numpy` broadcasting of that assignment therefore

* raises `ValueError: could not broadcast ...` unless `r - 2 = c - 2`
  (with `numpy`/ℕ truncation at `0`) or `r - 2 = 1`, since only value axes
  of size `1` stretch;
* for `r = 3` stretches the single interior value
  `cosk0[0,0] / (cosk0[0,0] + cosk1[0,0])` — both terms are
  `1 + cos(k[1])`, so the value is `1/2` — across the whole interior row
  (`bcol` records that the column grid index actually read is then `1`);
* in the remaining successful case (`r - 2 = c - 2`) reads `k[1+a]` and
  `k[1+b]` with both indices inside the length-`r` grid.

The corner writes `G1[0, 0] = ...` additionally raise an `IndexError`
when `r = 0` or `c = 0`.  `weightsE` models the raising call `_weights`;
`weightsG0`/`weightsG1` give the entries of the arrays it returns in the
non-raising case.  The sequence of in-place region assignments (zeros,
then interior, then edges, then corners, later writes winning) is
rendered as an if-chain tested in the reverse order of the writes; all
the regions written after the interior are pairwise disjoint from it and
from each other, so only corners-before-edges matters.
-/

/-- The angular grid `k = np.linspace(-np.pi, np.pi, num=r)`. -/
def wgrid (r : ℕ) (t : ℕ) : ℝ := linspace (-Real.pi) Real.pi r t

/-- The four corner positions `(0,0), (-1,-1), (0,-1), (-1,0)` of an `r × c` array. -/
def isCorner (r c i j : ℕ) : Prop :=
  (i = 0 ∨ i = r - 1) ∧ (j = 0 ∨ j = c - 1)

instance (r c i j : ℕ) : Decidable (isCorner r c i j) := by
  unfold isCorner; infer_instance

/-- Column grid index of the interior value actually read at interior
position `(i, j)` after `numpy` broadcasting: for `r = 3` the value block
is `1 × 1` and its single column (grid index `1`) is stretched across the
target row; in every other non-raising case the target has
`c - 2 = r - 2` interior columns and column `j` reads grid index `j`.
(The row grid index is `i` itself: for `r = 3` the only interior row is
`i = 1`.) -/
def bcol (r j : ℕ) : ℕ := if r = 3 then 1 else j

/-- Array `G1` of `_weights` for an `r × c` shape, on the non-raising
domain guarded by `weightsE`. -/
def weightsG1 (r c : ℕ) : Mat := fun i j =>
  if isCorner r c i j then 1 / 2
  else if (1 ≤ i ∧ i ≤ r - 2) ∧ (j = 0 ∨ j = c - 1) then 1
  else if (1 ≤ i ∧ i ≤ r - 2) ∧ (1 ≤ j ∧ j ≤ c - 2) then
    (1 + Real.cos (wgrid r i)) /
      ((1 + Real.cos (wgrid r i)) + (1 + Real.cos (wgrid r (bcol r j))))
  else 0

/-- Array `G0` of `_weights` for an `r × c` shape, on the non-raising
domain guarded by `weightsE`. -/
def weightsG0 (r c : ℕ) : Mat := fun i j =>
  if isCorner r c i j then 1 / 2
  else if (i = 0 ∨ i = r - 1) ∧ (1 ≤ j ∧ j ≤ c - 2) then 1
  else if (1 ≤ i ∧ i ≤ r - 2) ∧ (1 ≤ j ∧ j ≤ c - 2) then
    (1 + Real.cos (wgrid r (bcol r j))) /
      ((1 + Real.cos (wgrid r i)) + (1 + Real.cos (wgrid r (bcol r j))))
  else 0

/-- Value part of `_weights(shape)`: the pair `(G0, G1)` it returns when
it does not raise. -/
def weights (r c : ℕ) : Mat × Mat := (weightsG0 r c, weightsG1 r c)

/-- Success domain of `_weights`: the interior assignment broadcasts
(value shape `(r-2, r-2)` into target `(r-2, c-2)`) and the border/corner
writes are in bounds. -/
def weightsOk (r c : ℕ) : Prop :=
  (r - 2 = c - 2 ∨ r - 2 = 1) ∧ 1 ≤ r ∧ 1 ≤ c

instance (r c : ℕ) : Decidable (weightsOk r c) :=
  inferInstanceAs (Decidable ((r - 2 = c - 2 ∨ r - 2 = 1) ∧ 1 ≤ r ∧ 1 ≤ c))

/-- The function `_weights(shape)`: raises the broadcast `ValueError` of
the interior assignments, then the `IndexError` of the border and corner
writes on a zero-sized axis, and otherwise returns `(G0, G1)`. -/
def weightsE (r c : ℕ) : Except String (Mat × Mat) :=
  if ¬ (r - 2 = c - 2 ∨ r - 2 = 1) then
    .error "ValueError: could not broadcast input array"
  else if r = 0 ∨ c = 0 then
    .error "IndexError: index 0 is out of bounds"
  else .ok (weights r c)

/-!
## `_gibbs_removal_2d` (2D Slice Combiner)

Source:

    if np.any(G0) is None or np.any(G1) is None:
        G0, G1 = _weights(image.shape)
    img_c1 = _gibbs_removal_1d(image, axis=1, n_points=n_points)
    img_c0 = _gibbs_removal_1d(image, axis=0, n_points=n_points)
    C1 = np.fft.fft2(img_c1); C0 = np.fft.fft2(img_c0)
    imagec = abs(np.fft.ifft2(np.fft.fftshift(C1)*G1 + np.fft.fftshift(C0)*G0))

The optional arguments are Python values that are either `None` or an
array, so they are modelled by a small value type.  `np.any` always
returns a `numpy` boolean — `np.any(None)` is `np.False_` — hence the
identity test `... is None` of the guard is `False` for every argument and
`_weights` is never invoked by the guard.  When `G0`/`G1` are left `None`,
the multiplication `np.fft.fftshift(C1) * G1` then raises a `TypeError`,
modelled by the error branch of the final `match`.
-/

/-- A Python value that can appear in the optional `G0`/`G1` arguments. -/
inductive PyVal where
  | vNone : PyVal
  | vBool : Bool → PyVal
  | vArr : Mat → PyVal

/-- The Python identity test `... is None`. -/
def pyIsNone : PyVal → Bool
  | .vNone => true
  | _ => false

/-- Model of `np.any` over an `r × c` array (or over `None`, which `numpy` treats as
a falsy 0-d object array).  It always returns a `numpy` boolean. -/
def npAny (r c : ℕ) : PyVal → PyVal
  | .vNone => .vBool false
  | .vBool b => .vBool b
  | .vArr g => .vBool (open Classical in decide (∃ i < r, ∃ j < c, g i j ≠ 0))

/-- The frequency-domain combination of the two 1-D corrected images with
array weights `G0`, `G1` (the last three lines of `_gibbs_removal_2d`). -/
def gibbs2dCombine (image : Mat) (R C P : ℕ) (G0 G1 : Mat) : Mat :=
  let img_c1 := gibbs_removal_1d image R C true P
  let img_c0 := gibbs_removal_1d image R C false P
  fun i j => Complex.abs (ifft2 R C (fun u v =>
    fftshift2 R C (fft2 R C (fun a b => (img_c1 a b : ℂ))) u v * (G1 u v : ℂ) +
    fftshift2 R C (fft2 R C (fun a b => (img_c0 a b : ℂ))) u v * (G0 u v : ℂ)) i j)

/-- The function `_gibbs_removal_2d(image, n_points, G0, G1)` on an `R × C` image. -/
def gibbs_removal_2d (image : Mat) (R C P : ℕ) (G0opt G1opt : PyVal) :
    Except String Mat :=
  let w : PyVal × PyVal :=
    if pyIsNone (npAny R C G0opt) || pyIsNone (npAny R C G1opt) then
      (.vArr (weights R C).1, .vArr (weights R C).2)
    else (G0opt, G1opt)
  match w with
  | (.vArr G0, .vArr G1) => .ok (gibbs2dCombine image R C P G0 G1)
  | _ => .error "TypeError: unsupported operand for *: complex and NoneType"

/-!
## `gibbs_removal` (Volume Dispatcher)

Volumes are shape lists plus total index functions.  `np.swapaxes` checks
its axes against the rank (raising `numpy.AxisError` otherwise) and
reindexes; the rank-4 ↔ rank-3 reshapes merge/split the two trailing axes,
which is what a C-order `reshape((s0, s1, s2*s3))` / `reshape(inishap)`
does.  The per-slice loop `for vi in range(shap[2]): vol[:, :, vi] = ...`
is a left fold of in-place slice writes; each `_gibbs_removal_2d` call
receives arrays for `G0`/`G1` and therefore returns its `.ok` branch
(`gibbs2dCombine`, see `gibbs_removal_2d_vArr`), which is inlined in the
fold.  The weights are produced by the raising call `weightsE` on the
leading two dimensions of the (possibly swapped and reshaped) volume, so
the dispatcher propagates the broadcast `ValueError` of `_weights` for
shapes outside its success domain.
-/

/-- A dense volume: a shape and a total function from index lists. -/
structure NdArr where
  shape : List ℕ
  data : List ℕ → ℝ

/-- Rank of a volume, `vol.ndim`. -/
def NdArr.ndim (v : NdArr) : ℕ := v.shape.length

/-- Swap positions `a` and `b` of a list (identity outside the list). -/
def listSwap (l : List ℕ) (a b : ℕ) : List ℕ :=
  (l.set a (l.getD b 0)).set b (l.getD a 0)

/-- Pure reindexing form of `np.swapaxes` (no axis check). -/
def swapaxesT (v : NdArr) (a b : ℕ) : NdArr :=
  ⟨listSwap v.shape a b, fun l => v.data (listSwap l a b)⟩

/-- Checked form of `np.swapaxes` with the `numpy` axis-bounds check. -/
def swapaxesE (v : NdArr) (a b : ℕ) : Except String NdArr :=
  if a < v.ndim ∧ b < v.ndim then .ok (swapaxesT v a b)
  else .error "AxisError: axis out of bounds"

/-- C-order reshape `vol.reshape((s0, s1, s2*s3))` for a rank-4 volume (merge of the
two trailing axes); any other rank is untouched (the source only applies it
when `nd == 4`). -/
def reshape4to3 (v : NdArr) : NdArr :=
  match v.shape with
  | [s0, s1, s2, s3] =>
    ⟨[s0, s1, s2 * s3], fun l =>
      match l with
      | [i, j, t] => v.data [i, j, t / s3, t % s3]
      | _ => 0⟩
  | _ => v

/-- C-order reshape `vol.reshape(inishap)` splitting the merged trailing axis back
(C-order split), for `inishap` of rank 4. -/
def reshape3to4 (v : NdArr) (inishap : List ℕ) : NdArr :=
  match inishap with
  | [s0, s1, s2, s3] =>
    ⟨[s0, s1, s2, s3], fun l =>
      match l with
      | [i, j, z, g] => v.data [i, j, z * s3 + g]
      | _ => 0⟩
  | _ => v

/-- The 2-D slice `vol[:, :, vi]` of a rank-3 data function. -/
def slice2 (d : List ℕ → ℝ) (vi : ℕ) : Mat := fun i j => d [i, j, vi]

/-- The in-place slice write `vol[:, :, vi] = m`. -/
def writeSlice (d : List ℕ → ℝ) (vi : ℕ) (m : Mat) : List ℕ → ℝ := fun l =>
  match l with
  | [i, j, t] => if t = vi then m i j else d l
  | _ => d l

/-- The per-slice loop `for vi in range(n): vol[:, :, vi] = _gibbs_removal_2d(vol[:, :, vi], n_points, G0, G1)`. -/
def sliceLoop (R C P : ℕ) (G0 G1 : Mat) (n : ℕ) (d : List ℕ → ℝ) : List ℕ → ℝ :=
  (List.range n).foldl
    (fun acc vi => writeSlice acc vi (gibbs2dCombine (slice2 acc vi) R C P G0 G1)) d

/-- The dispatcher `gibbs_removal(vol, slice_axis, n_points)`. -/
def gibbs_removal (vol : NdArr) (slice_axis : ℕ) (P : ℕ) : Except String NdArr := do
  let nd := vol.ndim
  if slice_axis > 2 then
    throw "ValueError: Different slices have to be organized along one of the 3 first matrix dimensions"
  else
    let vol1 ← if slice_axis < 2 ∧ nd > 2 then swapaxesE vol slice_axis 2 else pure vol
    let inishap := vol1.shape
    let vol2 ←
      if nd = 4 then pure (reshape4to3 vol1)
      else if nd > 4 then throw "ValueError: Data have to be a 4D, 3D or 2D matrix"
      else if nd < 2 then throw "ValueError: Data is not an image"
      else pure vol1
    let shap := vol2.shape
    let R := shap.getD 0 0
    let C := shap.getD 1 0
    let w ← weightsE R C
    let vol3 : NdArr ←
      if nd = 2 then
        pure ⟨vol2.shape, fun l =>
          match l with
          | [i, j] => gibbs2dCombine (fun a b => vol2.data [a, b]) R C P w.1 w.2 i j
          | _ => 0⟩
      else
        pure ⟨vol2.shape, sliceLoop R C P w.1 w.2 (shap.getD 2 0) vol2.data⟩
    let vol4 := if nd = 4 then reshape3to4 vol3 inishap else vol3
    if slice_axis < 2 then swapaxesE vol4 slice_axis 2 else pure vol4

/-!
## Specification-side definitions and concrete inputs
-/

/-- Periodic lookup of a row of width `W` at an integer index, i.e. indexing
modulo the periodic extension of the axis. -/
def perGet (W : ℕ) (row : ℕ → ℝ) (t : ℤ) : ℝ := row ((t % (W : ℤ)).toNat)

/-- Modelled from the spec, claim C4 as stated: the spec says the
positive-direction score accumulates, for each offset `n` from `0` to
`n_points - 1`, the term `|x[i+1+n] - x[i+2+n]|` with indices taken modulo
the periodic extension. -/
def specPtvRow (P W : ℕ) (row : ℕ → ℝ) (j : ℕ) : ℝ :=
  ∑ n ∈ Finset.range P,
    |perGet W row ((j : ℤ) + 1 + n) - perGet W row ((j : ℤ) + 2 + n)|

/-- A concrete test image whose rows are `1, 0, 0, 0, ...`. -/
def exImg : Mat := fun _ t => if t = 0 then 1 else 0

/-!
## Lemmas: periodic indexing of the TV window (claim C4)
-/

lemma perGet_add_W (W : ℕ) (row : ℕ → ℝ) (t : ℤ) :
    perGet W row (t + W) = perGet W row t := by
  unfold perGet
  congr 1
  have h : t + (W : ℤ) = t + (W : ℤ) * 1 := by ring
  rw [h, Int.add_mul_emod_self_left]

lemma perGet_eq (W : ℕ) (row : ℕ → ℝ) (t : ℤ) (h0 : 0 ≤ t) (h1 : t < (W : ℤ)) :
    perGet W row t = row t.toNat := by
  unfold perGet
  rw [Int.emod_eq_of_lt h0 h1]

/-- On the positions actually read by the slices of `_image_tv`, the
concatenated array is exactly the periodic extension: entry `p` is the
original row at index `p - (P+1)` modulo `W`. -/
lemma tvExt_eq_perGet (P W : ℕ) (row : ℕ → ℝ) (hW : P + 1 ≤ W) (p : ℕ)
    (hp : p < W + 2 * (P + 1)) :
    tvExt P W row p = perGet W row ((p : ℤ) - (P + 1)) := by
  have hpre : min (P + 1) W = P + 1 := min_eq_left hW
  unfold tvExt
  rw [hpre]
  split_ifs with h1 h2
  · rw [← perGet_add_W W row ((p : ℤ) - (P + 1)),
      perGet_eq W row _ (by omega) (by omega)]
    congr 1
    omega
  · rw [perGet_eq W row _ (by omega) (by omega)]
    congr 1
    omega
  · have hsub : (p : ℤ) - (P + 1) - W + W = (p : ℤ) - (P + 1) := by ring
    rw [← hsub, perGet_add_W W row ((p : ℤ) - (P + 1) - W),
      perGet_eq W row _ (by omega) (by omega)]
    congr 1
    omega

lemma head_add_Ico (P : ℕ) (hP : 1 ≤ P) (f : ℕ → ℝ) :
    f 0 + ∑ n ∈ Finset.Ico 1 P, f n = ∑ n ∈ Finset.range P, f n := by
  have h : Finset.range P = insert 0 (Finset.Ico 1 P) := by
    ext t
    simp only [Finset.mem_range, Finset.mem_insert, Finset.mem_Ico]
    omega
  rw [h, Finset.sum_insert (by simp)]

lemma ptvRow_eq_perGet (P W : ℕ) (row : ℕ → ℝ) (hP : 1 ≤ P) (hW : P + 1 ≤ W)
    (j : ℕ) (hj : j < W) :
    ptvRow P W row j =
      ∑ n ∈ Finset.range P,
        |perGet W row ((j : ℤ) + n) - perGet W row ((j : ℤ) + n + 1)| := by
  have hsum : ptvRow P W row j =
      ∑ n ∈ Finset.range P,
        |tvExt P W row (P + 1 + n + j) - tvExt P W row (P + 2 + n + j)| := by
    unfold ptvRow
    exact head_add_Ico P hP
      (fun n => |tvExt P W row (P + 1 + n + j) - tvExt P W row (P + 2 + n + j)|)
  rw [hsum]
  apply Finset.sum_congr rfl
  intro n hn
  have hn' : n < P := Finset.mem_range.mp hn
  have e1 : ((P + 1 + n + j : ℕ) : ℤ) - (P + 1) = (j : ℤ) + n := by push_cast; ring
  have e2 : ((P + 2 + n + j : ℕ) : ℤ) - (P + 1) = (j : ℤ) + n + 1 := by push_cast; ring
  rw [tvExt_eq_perGet P W row hW (P + 1 + n + j) (by omega),
    tvExt_eq_perGet P W row hW (P + 2 + n + j) (by omega), e1, e2]

lemma ntvRow_eq_perGet (P W : ℕ) (row : ℕ → ℝ) (hP : 1 ≤ P) (hW : P + 1 ≤ W)
    (j : ℕ) (hj : j < W) :
    ntvRow P W row j =
      ∑ n ∈ Finset.range P,
        |perGet W row ((j : ℤ) - n) - perGet W row ((j : ℤ) - 1 - n)| := by
  have hsum : ntvRow P W row j =
      ∑ n ∈ Finset.range P,
        |tvExt P W row (P + 1 - n + j) - tvExt P W row (P - n + j)| := by
    unfold ntvRow
    exact head_add_Ico P hP
      (fun n => |tvExt P W row (P + 1 - n + j) - tvExt P W row (P - n + j)|)
  rw [hsum]
  apply Finset.sum_congr rfl
  intro n hn
  have hn' : n < P := Finset.mem_range.mp hn
  have e1 : ((P + 1 - n + j : ℕ) : ℤ) - (P + 1) = (j : ℤ) - n := by omega
  have e2 : ((P - n + j : ℕ) : ℤ) - (P + 1) = (j : ℤ) - 1 - n := by omega
  rw [tvExt_eq_perGet P W row hW (P + 1 - n + j) (by omega),
    tvExt_eq_perGet P W row hW (P - n + j) (by omega), e1, e2]

/-- C4, amended.  In the TV Estimator along axis 1 (width `C`), for each
offset `n` from `0` to `n_points - 1`, the positive-direction score
accumulates `|x[i+n] - x[i+1+n]|` into `ptv` — the claim as stated says
`|x[i+1+n] - x[i+2+n]|`, which is off by one — and the negative-direction
score accumulates `|x[i-n] - x[i-1-n]|` into `ntv` exactly as claimed,
with indices taken modulo the periodic extension of the axis
(wrap-around, not clamping or zero-padding). -/
theorem claim_C4_amended (x : Mat) (R C P i j : ℕ) (hP : 1 ≤ P)
    (hW : P + 1 ≤ C) (hj : j < C) :
    (image_tv x R C true P).1 i j =
      ∑ n ∈ Finset.range P,
        |perGet C (x i) ((j : ℤ) + n) - perGet C (x i) ((j : ℤ) + n + 1)| ∧
    (image_tv x R C true P).2 i j =
      ∑ n ∈ Finset.range P,
        |perGet C (x i) ((j : ℤ) - n) - perGet C (x i) ((j : ℤ) - 1 - n)| := by
  constructor
  · exact ptvRow_eq_perGet P C (x i) hP hW j hj
  · exact ntvRow_eq_perGet P C (x i) hP hW j hj

/-- Closed witness for `claim_C4_amended` at the concrete input `exImg`
(shape `1 × 3`, `n_points = 1`, pixel `(0, 0)`). -/
theorem claim_C4_amended_witness :
    (1 ≤ 1 ∧ 1 + 1 ≤ 3 ∧ (0 : ℕ) < 3) ∧
      ((image_tv exImg 1 3 true 1).1 0 0 =
          ∑ n ∈ Finset.range 1,
            |perGet 3 (exImg 0) (((0 : ℕ) : ℤ) + n) -
              perGet 3 (exImg 0) (((0 : ℕ) : ℤ) + n + 1)| ∧
        (image_tv exImg 1 3 true 1).2 0 0 =
          ∑ n ∈ Finset.range 1,
            |perGet 3 (exImg 0) (((0 : ℕ) : ℤ) - n) -
              perGet 3 (exImg 0) (((0 : ℕ) : ℤ) - 1 - n)|) :=
  ⟨by decide, claim_C4_amended exImg 1 3 1 0 0 (by decide) (by decide) (by decide)⟩

/-- C4 counterexample.  The claim as stated is false on the code: for the
`1 × 3` image with row `1, 0, 0` and `n_points = 1`, the code computes
`ptv` at pixel `(0, 0)` as `|x[0] - x[1]| = 1`, while the claimed
accumulation `|x[i+1+n] - x[i+2+n]|` (definition `specPtvRow`, written
from the spec sentence) gives `|x[1] - x[2]| = 0`. -/
theorem claim_C4_counterexample :
    (image_tv exImg 1 3 true 1).1 0 0 ≠ specPtvRow 1 3 (exImg 0) 0 := by
  have hL : (image_tv exImg 1 3 true 1).1 0 0 = 1 := by
    show ptvRow 1 3 (exImg 0) 0 = 1
    unfold ptvRow tvExt exImg
    norm_num
  have hR : specPtvRow 1 3 (exImg 0) 0 = 0 := by
    unfold specPtvRow perGet exImg
    norm_num
  rw [hL, hR]
  norm_num

/-!
## Lemmas: nonnegativity of TV, constant images, shift-range invariant
-/

lemma tvExt_const (P W : ℕ) (v : ℝ) (j : ℕ) : tvExt P W (fun _ => v) j = v := by
  unfold tvExt
  split_ifs <;> rfl

lemma ptvRow_const (P W : ℕ) (v : ℝ) (j : ℕ) : ptvRow P W (fun _ => v) j = 0 := by
  unfold ptvRow
  simp [tvExt_const]

lemma ntvRow_const (P W : ℕ) (v : ℝ) (j : ℕ) : ntvRow P W (fun _ => v) j = 0 := by
  unfold ntvRow
  simp [tvExt_const]

lemma ptvRow_nonneg (P W : ℕ) (row : ℕ → ℝ) (j : ℕ) : 0 ≤ ptvRow P W row j := by
  unfold ptvRow
  have h2 : (0 : ℝ) ≤ ∑ n ∈ Finset.Ico 1 P,
      |tvExt P W row (P + 1 + n + j) - tvExt P W row (P + 2 + n + j)| :=
    Finset.sum_nonneg fun n _ => abs_nonneg _
  have h1 := abs_nonneg (tvExt P W row (P + 1 + j) - tvExt P W row (P + 2 + j))
  linarith

lemma ntvRow_nonneg (P W : ℕ) (row : ℕ → ℝ) (j : ℕ) : 0 ≤ ntvRow P W row j := by
  unfold ntvRow
  have h2 : (0 : ℝ) ≤ ∑ n ∈ Finset.Ico 1 P,
      |tvExt P W row (P + 1 - n + j) - tvExt P W row (P - n + j)| :=
    Finset.sum_nonneg fun n _ => abs_nonneg _
  have h1 := abs_nonneg (tvExt P W row (P + 1 + j) - tvExt P W row (P + j))
  linarith

lemma tvMin_nonneg (R N P : ℕ) (img : Mat) (i j : ℕ) : 0 ≤ tvMin R N P img i j := by
  show (0 : ℝ) ≤ min (ptvRow P N (img i) j) (ntvRow P N (img i) j)
  exact le_min (ptvRow_nonneg P N (img i) j) (ntvRow_nonneg P N (img i) j)

lemma tvMin_const (R N P : ℕ) (v : ℝ) (i j : ℕ) :
    tvMin R N P (fun _ _ => v) i j = 0 := by
  show min (ptvRow P N (fun _ => v) j) (ntvRow P N (fun _ => v) j) = 0
  rw [ptvRow_const, ntvRow_const, min_self]

lemma shiftStep_sp (R N P : ℕ) (c : ℕ → ℕ → ℂ) (st : ShiftState) (s : ℝ) (i j : ℕ) :
    (shiftStep R N P c st s).sp i j =
      if tvMin R N P (posImage R N c s) i j < st.tvp i j then s else st.sp i j := rfl

lemma shiftStep_sn (R N P : ℕ) (c : ℕ → ℕ → ℂ) (st : ShiftState) (s : ℝ) (i j : ℕ) :
    (shiftStep R N P c st s).sn i j =
      if tvMin R N P (negImage R N c s) i j < st.tvn i j then s else st.sn i j := rfl

lemma shiftStep_tvp (R N P : ℕ) (c : ℕ → ℕ → ℂ) (st : ShiftState) (s : ℝ) (i j : ℕ) :
    (shiftStep R N P c st s).tvp i j =
      if tvMin R N P (posImage R N c s) i j < st.tvp i j then
        tvMin R N P (posImage R N c s) i j else st.tvp i j := rfl

lemma shiftStep_tvn (R N P : ℕ) (c : ℕ → ℕ → ℂ) (st : ShiftState) (s : ℝ) (i j : ℕ) :
    (shiftStep R N P c st s).tvn i j =
      if tvMin R N P (negImage R N c s) i j < st.tvn i j then
        tvMin R N P (negImage R N c s) i j else st.tvn i j := rfl

/-- Through any list of trial shifts, a state whose best-TV fields are zero
everywhere and whose shift fields are zero everywhere stays that way: no
trial reconstruction can have TV strictly below zero, since TV is a sum of
absolute values. -/
lemma foldl_zero_inv (R N P : ℕ) (c : ℕ → ℕ → ℂ) :
    ∀ (l : List ℝ) (st : ShiftState),
      ((∀ i j, st.tvp i j = 0) ∧ (∀ i j, st.sp i j = 0) ∧
        (∀ i j, st.tvn i j = 0) ∧ (∀ i j, st.sn i j = 0)) →
      ((∀ i j, (l.foldl (shiftStep R N P c) st).tvp i j = 0) ∧
        (∀ i j, (l.foldl (shiftStep R N P c) st).sp i j = 0) ∧
        (∀ i j, (l.foldl (shiftStep R N P c) st).tvn i j = 0) ∧
        (∀ i j, (l.foldl (shiftStep R N P c) st).sn i j = 0)) := by
  intro l
  induction l with
  | nil => exact fun st h => h
  | cons s rest ih =>
    intro st h
    obtain ⟨h1, h2, h3, h4⟩ := h
    have hp : ∀ i j, ¬ tvMin R N P (posImage R N c s) i j < st.tvp i j := by
      intro i j
      rw [h1 i j]
      exact not_lt.mpr (tvMin_nonneg R N P _ i j)
    have hn : ∀ i j, ¬ tvMin R N P (negImage R N c s) i j < st.tvn i j := by
      intro i j
      rw [h3 i j]
      exact not_lt.mpr (tvMin_nonneg R N P _ i j)
    refine ih (shiftStep R N P c st s) ⟨?_, ?_, ?_, ?_⟩ <;> intro i j
    · rw [shiftStep_tvp, if_neg (hp i j)]
      exact h1 i j
    · rw [shiftStep_sp, if_neg (hp i j)]
      exact h2 i j
    · rw [shiftStep_tvn, if_neg (hn i j)]
      exact h3 i j
    · rw [shiftStep_sn, if_neg (hn i j)]
      exact h4 i j

/-- On a constant image both recorded shift fields stay zero through the
whole grid: the baseline TV is `0` and no trial strictly improves it. -/
lemma finalState_const (R N P : ℕ) (v : ℝ) :
    (∀ i j, (finalState R N P (fun _ _ => v)).sp i j = 0) ∧
    (∀ i j, (finalState R N P (fun _ _ => v)).sn i j = 0) := by
  have hinit : (∀ i j, (initState R N P (fun _ _ => v)).tvp i j = 0) ∧
      (∀ i j, (initState R N P (fun _ _ => v)).sp i j = 0) ∧
      (∀ i j, (initState R N P (fun _ _ => v)).tvn i j = 0) ∧
      (∀ i j, (initState R N P (fun _ _ => v)).sn i j = 0) := by
    refine ⟨?_, ?_, ?_, ?_⟩ <;> intro i j
    · exact tvMin_const R N P v i j
    · rfl
    · exact tvMin_const R N P v i j
    · rfl
  have h := foldl_zero_inv R N P (spectrum R N (fun _ _ => v)) ssamp
    (initState R N P (fun _ _ => v)) hinit
  exact ⟨h.2.1, h.2.2.2⟩

/-- C7.  On a spatially constant 2-D array the 1D Line Corrector is the
identity: the baseline TV is zero everywhere, TV of every trial
reconstruction is nonnegative, so no strict improvement ever fires, `sp`
and `sn` stay `0` at every pixel, and the final interpolation leaves every
pixel at its original value. -/
theorem claim_C7 (R C P : ℕ) (axis : Bool) (v : ℝ) :
    gibbs_removal_1d (fun _ _ => v) R C axis P = fun _ _ => v := by
  have key : ∀ R' N' : ℕ, gibbs1dAux R' N' P (fun _ _ => v) = fun _ _ => v := by
    intro R' N'
    funext i j
    obtain ⟨hsp, hsn⟩ := finalState_const R' N' P v
    show interp (fun _ _ => v) (finalState R' N' P (fun _ _ => v)) i j = v
    unfold interp
    rw [hsp i j, hsn i j]
    simp
  cases axis with
  | false =>
    funext i j
    show gibbs1dAux C R P (fun _ _ => v) j i = v
    rw [key C R]
  | true =>
    exact key R C

lemma ssamp_mem_bounds : ∀ s ∈ ssamp, 0.02 ≤ s ∧ s ≤ 0.9 := by
  intro s hs
  unfold ssamp at hs
  simp only [List.mem_map, List.mem_range] at hs
  obtain ⟨n, hn, rfl⟩ := hs
  unfold linspace
  have hn' : (n : ℝ) ≤ 44 := by
    have h : n ≤ 44 := by omega
    exact_mod_cast h
  have hn0 : (0 : ℝ) ≤ (n : ℝ) := Nat.cast_nonneg n
  rw [mul_div_right_comm]
  have e : ((0.9 : ℝ) - 0.02) / (((45 : ℕ) : ℝ) - 1) = 0.02 := by norm_num
  rw [e]
  constructor
  · nlinarith
  · nlinarith

/-- Entries of the shift fields are only ever left at `0` or overwritten
with the current grid value; along any list of trial shifts drawn from
`[0.02, 0.9]` the fields therefore stay in `{0} ∪ [0.02, 0.9]`. -/
lemma foldl_shift_inv (R N P : ℕ) (c : ℕ → ℕ → ℂ) :
    ∀ (l : List ℝ), (∀ s ∈ l, 0.02 ≤ s ∧ s ≤ 0.9) →
      ∀ (st : ShiftState),
        (∀ i j, (st.sp i j = 0 ∨ (0.02 ≤ st.sp i j ∧ st.sp i j ≤ 0.9)) ∧
          (st.sn i j = 0 ∨ (0.02 ≤ st.sn i j ∧ st.sn i j ≤ 0.9))) →
        ∀ i j,
          ((l.foldl (shiftStep R N P c) st).sp i j = 0 ∨
            (0.02 ≤ (l.foldl (shiftStep R N P c) st).sp i j ∧
              (l.foldl (shiftStep R N P c) st).sp i j ≤ 0.9)) ∧
          ((l.foldl (shiftStep R N P c) st).sn i j = 0 ∨
            (0.02 ≤ (l.foldl (shiftStep R N P c) st).sn i j ∧
              (l.foldl (shiftStep R N P c) st).sn i j ≤ 0.9)) := by
  intro l
  induction l with
  | nil => exact fun _ st h => h
  | cons s rest ih =>
    intro hl st h i j
    refine ih (fun t ht => hl t (List.mem_cons_of_mem s ht))
      (shiftStep R N P c st s) ?_ i j
    intro a b
    obtain ⟨hsp, hsn⟩ := h a b
    have hs := hl s (List.mem_cons_self s rest)
    constructor
    · rw [shiftStep_sp]
      split_ifs
      · exact Or.inr hs
      · exact hsp
    · rw [shiftStep_sn]
      split_ifs
      · exact Or.inr hs
      · exact hsn

lemma initState_shift_inv (R N P : ℕ) (xs : Mat) : ∀ i j,
    ((initState R N P xs).sp i j = 0 ∨
      (0.02 ≤ (initState R N P xs).sp i j ∧ (initState R N P xs).sp i j ≤ 0.9)) ∧
    ((initState R N P xs).sn i j = 0 ∨
      (0.02 ≤ (initState R N P xs).sn i j ∧ (initState R N P xs).sn i j ≤ 0.9)) :=
  fun _ _ => ⟨Or.inl rfl, Or.inl rfl⟩

/-- C8.  Throughout the 1D Line Corrector shift search (state after any
prefix of the grid) and after it (the final state), every entry of the
shift fields `sp` and `sn` is either `0` or lies in the searched range
`[0.02, 0.9]`: entries are only ever assigned values of the fixed grid
`linspace(0.02, 0.9, 45)`. -/
theorem claim_C8 (R N P m : ℕ) (xs : Mat) (i j : ℕ) :
    (((stateAfter R N P xs m).sp i j = 0 ∨
        (0.02 ≤ (stateAfter R N P xs m).sp i j ∧
          (stateAfter R N P xs m).sp i j ≤ 0.9)) ∧
      ((stateAfter R N P xs m).sn i j = 0 ∨
        (0.02 ≤ (stateAfter R N P xs m).sn i j ∧
          (stateAfter R N P xs m).sn i j ≤ 0.9))) ∧
    (((finalState R N P xs).sp i j = 0 ∨
        (0.02 ≤ (finalState R N P xs).sp i j ∧
          (finalState R N P xs).sp i j ≤ 0.9)) ∧
      ((finalState R N P xs).sn i j = 0 ∨
        (0.02 ≤ (finalState R N P xs).sn i j ∧
          (finalState R N P xs).sn i j ≤ 0.9))) := by
  constructor
  · exact foldl_shift_inv R N P (spectrum R N xs) (ssamp.take m)
      (fun s hs => ssamp_mem_bounds s (List.take_subset m ssamp hs))
      (initState R N P xs) (initState_shift_inv R N P xs) i j
  · exact foldl_shift_inv R N P (spectrum R N xs) ssamp ssamp_mem_bounds
      (initState R N P xs) (initState_shift_inv R N P xs) i j

/-- C6.  After the shift search, at every pixel either both recorded shifts
are zero, or their sum is strictly positive — and `sp + sn ≠ 0` is
equivalent to `0 < sp + sn`.  Since the final interpolation `interp`
divides by `sp + sn` only under its `sp + sn ≠ 0` guard, the denominator is
strictly positive wherever the division happens and no division by zero can
occur. -/
theorem claim_C6 (R N P : ℕ) (xs : Mat) (i j : ℕ) :
    (((finalState R N P xs).sp i j = 0 ∧ (finalState R N P xs).sn i j = 0) ∨
      0 < (finalState R N P xs).sp i j + (finalState R N P xs).sn i j) ∧
    ((finalState R N P xs).sp i j + (finalState R N P xs).sn i j ≠ 0 ↔
      0 < (finalState R N P xs).sp i j + (finalState R N P xs).sn i j) := by
  have h := foldl_shift_inv R N P (spectrum R N xs) ssamp ssamp_mem_bounds
    (initState R N P xs) (initState_shift_inv R N P xs) i j
  have hsp : (finalState R N P xs).sp i j = 0 ∨
      (0.02 ≤ (finalState R N P xs).sp i j ∧ (finalState R N P xs).sp i j ≤ 0.9) :=
    h.1
  have hsn : (finalState R N P xs).sn i j = 0 ∨
      (0.02 ≤ (finalState R N P xs).sn i j ∧ (finalState R N P xs).sn i j ≤ 0.9) :=
    h.2
  have key : ((finalState R N P xs).sp i j = 0 ∧ (finalState R N P xs).sn i j = 0) ∨
      0 < (finalState R N P xs).sp i j + (finalState R N P xs).sn i j := by
    rcases hsp with h1 | h1 <;> rcases hsn with h2 | h2
    · exact Or.inl ⟨h1, h2⟩
    · right
      rw [h1]
      linarith [h2.1]
    · right
      rw [h2]
      linarith [h1.1]
    · right
      linarith [h1.1, h2.1]
  refine ⟨key, ?_, ?_⟩
  · intro hne
    rcases key with ⟨e1, e2⟩ | hpos
    · exact absurd (by rw [e1, e2]; ring) hne
    · exact hpos
  · intro hpos
    exact ne_of_gt hpos

/-!
## Lemmas: weight masks (claim C5)
-/

lemma one_add_cos_nonneg (x : ℝ) : 0 ≤ 1 + Real.cos x := by
  have h := Real.neg_one_le_cos x
  linarith

lemma one_add_cos_pos {x : ℝ} (h1 : -Real.pi < x) (h2 : x < Real.pi) :
    0 < 1 + Real.cos x := by
  have hhalf : 0 < Real.cos (x / 2) := by
    apply Real.cos_pos_of_mem_Ioo
    constructor
    · linarith
    · linarith
  have hsq : Real.cos (x / 2) ^ 2 = 1 / 2 + Real.cos (2 * (x / 2)) / 2 :=
    Real.cos_sq (x / 2)
  have hx : 2 * (x / 2) = x := by ring
  rw [hx] at hsq
  have hp : 0 < Real.cos (x / 2) ^ 2 := pow_pos hhalf 2
  linarith

/-- Interior rows of the angular grid lie strictly inside `(-π, π)`. -/
lemma wgrid_mem (r i : ℕ) (h1 : 1 ≤ i) (h2 : i ≤ r - 2) (hr0 : i < r) :
    -Real.pi < wgrid r i ∧ wgrid r i < Real.pi := by
  have hr : 3 ≤ r := by omega
  unfold wgrid linspace
  have hr' : (0 : ℝ) < (r : ℝ) - 1 := by
    have h : (3 : ℝ) ≤ (r : ℝ) := by exact_mod_cast hr
    linarith
  have hi1 : (1 : ℝ) ≤ (i : ℝ) := by exact_mod_cast h1
  have hi2 : (i : ℝ) ≤ (r : ℝ) - 2 := by
    have h : i + 2 ≤ r := by omega
    have h' : ((i : ℝ) + 2) ≤ (r : ℝ) := by exact_mod_cast h
    linarith
  have hpi := Real.pi_pos
  constructor
  · have hpos : 0 < (Real.pi - -Real.pi) * (i : ℝ) / ((r : ℝ) - 1) := by
      apply div_pos
      · apply mul_pos
        · linarith
        · linarith
      · exact hr'
    linarith
  · have hlt : (Real.pi - -Real.pi) * (i : ℝ) / ((r : ℝ) - 1) < 2 * Real.pi := by
      rw [div_lt_iff₀ hr']
      nlinarith
    linarith

/-- Pointwise analysis of the weight masks: they are complementary and lie
in `[0, 1]` at every in-range position. -/
lemma weights_pointwise (r c i j : ℕ) (hi : i < r) (hj : j < c) :
    weightsG0 r c i j + weightsG1 r c i j = 1 ∧
    0 ≤ weightsG0 r c i j ∧ weightsG0 r c i j ≤ 1 ∧
    0 ≤ weightsG1 r c i j ∧ weightsG1 r c i j ≤ 1 := by
  unfold weightsG0 weightsG1
  by_cases hc : isCorner r c i j
  · rw [if_pos hc, if_pos hc]
    norm_num
  · rw [if_neg hc, if_neg hc]
    by_cases hG1e : (1 ≤ i ∧ i ≤ r - 2) ∧ (j = 0 ∨ j = c - 1)
    · have hG0e : ¬ ((i = 0 ∨ i = r - 1) ∧ (1 ≤ j ∧ j ≤ c - 2)) := by
        obtain ⟨⟨hi1, hi2⟩, hj0⟩ := hG1e
        rintro ⟨h1, _⟩
        omega
      have hG0i : ¬ ((1 ≤ i ∧ i ≤ r - 2) ∧ (1 ≤ j ∧ j ≤ c - 2)) := by
        obtain ⟨_, hj0⟩ := hG1e
        rintro ⟨_, h2⟩
        omega
      rw [if_pos hG1e, if_neg hG0e, if_neg hG0i]
      norm_num
    · by_cases hG0e : (i = 0 ∨ i = r - 1) ∧ (1 ≤ j ∧ j ≤ c - 2)
      · have hG1i : ¬ ((1 ≤ i ∧ i ≤ r - 2) ∧ (1 ≤ j ∧ j ≤ c - 2)) := by
          obtain ⟨h3, _⟩ := hG0e
          rintro ⟨⟨h1, h2⟩, _⟩
          omega
        rw [if_pos hG0e, if_neg hG1e, if_neg hG1i]
        norm_num
      · by_cases hInt : (1 ≤ i ∧ i ≤ r - 2) ∧ (1 ≤ j ∧ j ≤ c - 2)
        · rw [if_neg hG1e, if_neg hG0e, if_pos hInt, if_pos hInt]
          obtain ⟨⟨hi1, hi2⟩, -⟩ := hInt
          obtain ⟨hwa, hwb⟩ := wgrid_mem r i hi1 hi2 hi
          have hA : 0 < 1 + Real.cos (wgrid r i) := one_add_cos_pos hwa hwb
          have hB : 0 ≤ 1 + Real.cos (wgrid r (bcol r j)) := one_add_cos_nonneg _
          have hD : 0 < (1 + Real.cos (wgrid r i)) + (1 + Real.cos (wgrid r (bcol r j))) := by
            linarith
          refine ⟨?_, ?_, ?_, ?_, ?_⟩
          · rw [div_add_div_same, add_comm]
            exact div_self (ne_of_gt hD)
          · exact div_nonneg hB hD.le
          · rw [div_le_one hD]
            linarith
          · exact div_nonneg hA.le hD.le
          · rw [div_le_one hD]
            linarith
        · exfalso
          unfold isCorner at hc
          omega

/-- On its success domain, `_weights` returns the value pair. -/
lemma weightsE_ok (r c : ℕ) (h : weightsOk r c) :
    weightsE r c = .ok (weights r c) := by
  obtain ⟨h1, h2, h3⟩ := h
  unfold weightsE
  rw [if_neg (not_not_intro h1), if_neg (by omega)]

/-- C5 counterexample.  The claim as stated is false on the code: for the
non-square shape `(5, 6)` the interior block of `_weights` has shape
`(3, 3)` and cannot broadcast into the `(3, 4)` target region, so the
call raises a `ValueError` instead of returning two arrays. -/
theorem claim_C5_counterexample :
    weightsE 5 6 = .error "ValueError: could not broadcast input array" := rfl

/-- C5, amended.  For every 2-D shape on which `_weights` returns at all
(square shapes, shapes with `shape[0] = 3`, and shapes with both
dimensions at most `2`, all with no zero-sized axis; on every other shape
the interior assignment raises a broadcast `ValueError`), the returned
masks satisfy `G0 + G1 = 1` at every entry (exactly, in the model real
arithmetic) and every entry of `G0` and `G1` lies in `[0, 1]`. -/
theorem claim_C5_amended (r c : ℕ) (G : Mat × Mat) (h : weightsE r c = .ok G)
    (i : Fin r) (j : Fin c) :
    G.1 i j + G.2 i j = 1 ∧
    0 ≤ G.1 i j ∧ G.1 i j ≤ 1 ∧
    0 ≤ G.2 i j ∧ G.2 i j ≤ 1 := by
  have hG : G = weights r c := by
    unfold weightsE at h
    split_ifs at h
    exact (Except.ok.inj h).symm
  subst hG
  exact weights_pointwise r c i j i.isLt j.isLt

/-- Closed witness for `claim_C5_amended` at the square shape `(4, 4)`,
entry `(1, 1)`. -/
theorem claim_C5_amended_witness :
    weightsE 4 4 = .ok (weights 4 4) ∧
      ((weights 4 4).1 1 1 + (weights 4 4).2 1 1 = 1 ∧
        0 ≤ (weights 4 4).1 1 1 ∧ (weights 4 4).1 1 1 ≤ 1 ∧
        0 ≤ (weights 4 4).2 1 1 ∧ (weights 4 4).2 1 1 ≤ 1) :=
  ⟨rfl, claim_C5_amended 4 4 (weights 4 4) rfl 1 1⟩

/-!
## Lemmas and claims: the 2-D combiner guard and the dispatcher (C1, C2, C3, C9)
-/

/-- Whatever its argument, `np.any` returns a `numpy` boolean, never
`None`; hence the guard `np.any(G0) is None or np.any(G1) is None` of
`_gibbs_removal_2d` is `False` for every input. -/
lemma pyIsNone_npAny (r c : ℕ) (v : PyVal) : pyIsNone (npAny r c v) = false := by
  cases v <;> rfl

/-- With arrays supplied for both weights, `_gibbs_removal_2d` reduces to
the frequency-domain combination; this justifies inlining `gibbs2dCombine`
in the dispatcher loop, which always passes the precomputed masks. -/
lemma gibbs_removal_2d_vArr (image : Mat) (R C P : ℕ) (G0 G1 : Mat) :
    gibbs_removal_2d image R C P (.vArr G0) (.vArr G1) =
      .ok (gibbs2dCombine image R C P G0 G1) := rfl

/-- C3 fails on the code (code bug).  When `_gibbs_removal_2d` is called
with `G0` and `G1` absent (`None`), the guard `np.any(G0) is None` is
`False` (`np.any` returns a `numpy` boolean, never `None`), so `_weights`
is never invoked; the `None` weights then reach the spectrum combination
`np.fft.fftshift(C1) * G1` and the call raises a `TypeError` instead of
returning a corrected slice, contrary to the docstring and the spec. -/
theorem claim_C3_failing_eval (image : Mat) (R C P : ℕ) :
    gibbs_removal_2d image R C P .vNone .vNone =
      .error "TypeError: unsupported operand for *: complex and NoneType" := rfl

/-- C1 fails on the code (code bug).  For a rank-2 input with
`slice_axis = 0` — a combination the claim says must succeed — the final
restore step `if slice_axis < 2: np.swapaxes(vol, slice_axis, 2)` runs
without the `nd > 2` guard that protected the initial swap, and
`np.swapaxes` on a 2-D array with axis `2` raises an axis-out-of-bounds
error.  Evaluation of the embedded dispatcher at a concrete failing input:
a `4 × 4` image, `slice_axis = 0`, `n_points = 3`. -/
theorem claim_C1_failing_eval (d : List ℕ → ℝ) :
    gibbs_removal ⟨[4, 4], d⟩ 0 3 = .error "AxisError: axis out of bounds" := rfl

lemma map_shape_of_bind {m : Except String (Mat × Mat)} {g : Mat × Mat}
    (hm : m = Except.ok g) (f : Mat × Mat → Except String NdArr) (s : List ℕ)
    (hf : (f g).map NdArr.shape = Except.ok s) :
    (m.bind f).map NdArr.shape = Except.ok s := by
  rw [hm]
  exact hf

lemma error_of_bind {m : Except String (Mat × Mat)} {g : Mat × Mat}
    (hm : m = Except.ok g) (f : Mat × Mat → Except String NdArr) (e : String)
    (hf : f g = Except.error e) :
    m.bind f = Except.error e := by
  rw [hm]
  exact hf

/-- C2, shape preservation (code bug).  Whenever the dispatcher returns,
the returned array has exactly the input shape: for rank-3 and rank-4
volumes this needs the leading two dimensions after the axis swap to lie
in the success domain of `_weights` (`weightsOk`), and for rank-2 volumes
additionally `slice_axis = 2`.  The claim's unconditional version fails
on the code in two ways, both evaluated below: a rank-2 volume with
`slice_axis < 2` reaches the unguarded final swap and raises `AxisError`
(when `_weights` succeeded), and any volume whose leading dimensions
after axis handling fall outside the `_weights` success domain — e.g. the
non-square `(5, 6, 3)` with `slice_axis = 2`, or the non-square rank-2
`(5, 6)` with any `slice_axis` — raises the broadcast `ValueError` and
returns no array. -/
theorem claim_C2_shape :
    (∀ (X Y : ℕ) (d : List ℕ → ℝ) (P : ℕ), weightsOk X Y →
        (gibbs_removal ⟨[X, Y], d⟩ 2 P).map NdArr.shape = .ok [X, Y]) ∧
    (∀ (X Y Z : ℕ) (d : List ℕ → ℝ) (P : ℕ),
        (weightsOk Z Y →
          (gibbs_removal ⟨[X, Y, Z], d⟩ 0 P).map NdArr.shape = .ok [X, Y, Z]) ∧
        (weightsOk X Z →
          (gibbs_removal ⟨[X, Y, Z], d⟩ 1 P).map NdArr.shape = .ok [X, Y, Z]) ∧
        (weightsOk X Y →
          (gibbs_removal ⟨[X, Y, Z], d⟩ 2 P).map NdArr.shape = .ok [X, Y, Z])) ∧
    (∀ (X Y Z G : ℕ) (d : List ℕ → ℝ) (P : ℕ),
        (weightsOk Z Y →
          (gibbs_removal ⟨[X, Y, Z, G], d⟩ 0 P).map NdArr.shape = .ok [X, Y, Z, G]) ∧
        (weightsOk X Z →
          (gibbs_removal ⟨[X, Y, Z, G], d⟩ 1 P).map NdArr.shape = .ok [X, Y, Z, G]) ∧
        (weightsOk X Y →
          (gibbs_removal ⟨[X, Y, Z, G], d⟩ 2 P).map NdArr.shape = .ok [X, Y, Z, G])) ∧
    (∀ (X Y : ℕ) (d : List ℕ → ℝ) (P : ℕ) (a : Fin 2), weightsOk X Y →
        gibbs_removal ⟨[X, Y], d⟩ a P = .error "AxisError: axis out of bounds") ∧
    (∀ (d : List ℕ → ℝ) (P : ℕ),
        gibbs_removal ⟨[5, 6, 3], d⟩ 2 P =
          .error "ValueError: could not broadcast input array") ∧
    (∀ (d : List ℕ → ℝ) (P : ℕ) (a : Fin 3),
        gibbs_removal ⟨[5, 6], d⟩ a P =
          .error "ValueError: could not broadcast input array") := by
  refine ⟨?_, ?_, ?_, ?_, ?_, ?_⟩
  · intro X Y d P hw
    exact map_shape_of_bind (weightsE_ok X Y hw) _ _ rfl
  · intro X Y Z d P
    exact ⟨fun hw => map_shape_of_bind (weightsE_ok Z Y hw) _ _ rfl,
      fun hw => map_shape_of_bind (weightsE_ok X Z hw) _ _ rfl,
      fun hw => map_shape_of_bind (weightsE_ok X Y hw) _ _ rfl⟩
  · intro X Y Z G d P
    exact ⟨fun hw => map_shape_of_bind (weightsE_ok Z Y hw) _ _ rfl,
      fun hw => map_shape_of_bind (weightsE_ok X Z hw) _ _ rfl,
      fun hw => map_shape_of_bind (weightsE_ok X Y hw) _ _ rfl⟩
  · intro X Y d P a hw
    fin_cases a
    · exact error_of_bind (weightsE_ok X Y hw) _ _ rfl
    · exact error_of_bind (weightsE_ok X Y hw) _ _ rfl
  · intro d P
    rfl
  · intro d P a
    fin_cases a <;> rfl

/-- Closed witness for `claim_C2_shape`, discharging its `weightsOk`
hypotheses at concrete inputs: a square `4 × 4` image with
`slice_axis = 2`, and a `7 × 4 × 4` volume with `slice_axis = 0` (after
the entry swap its leading dimensions are `4 × 4`). -/
theorem claim_C2_shape_witness :
    (weightsOk 4 4 ∧
      (gibbs_removal ⟨[4, 4], fun _ => 0⟩ 2 3).map NdArr.shape = .ok [4, 4]) ∧
    (weightsOk 4 4 ∧
      (gibbs_removal ⟨[7, 4, 4], fun _ => 0⟩ 0 3).map NdArr.shape = .ok [7, 4, 4]) :=
  ⟨⟨by decide, claim_C2_shape.1 4 4 (fun _ => 0) 3 (by decide)⟩,
   ⟨by decide, (claim_C2_shape.2.1 7 4 4 (fun _ => 0) 3).1 (by decide)⟩⟩

lemma bind_map_swap_eq (m : Except String (Mat × Mat))
    (f g : Mat × Mat → Except String NdArr)
    (h : ∀ w, f w = (g w).map (fun v => swapaxesT v 0 2)) :
    m.bind f = (m.bind g).map (fun v => swapaxesT v 0 2) := by
  cases m with
  | error e => rfl
  | ok w => exact h w

/-- C9.  For a rank-3 volume, running the dispatcher with `slice_axis = 0`
is the same as transposing axes `(0, 2)`, running it with `slice_axis = 2`,
and transposing the result back: the dispatcher implements `slice_axis = 0`
by exactly this swap (performed on entry and undone on exit).  Both sides
also fail identically when `_weights` raises on the swapped leading
dimensions. -/
theorem claim_C9 (X Y Z : ℕ) (d : List ℕ → ℝ) (P : ℕ) :
    gibbs_removal ⟨[X, Y, Z], d⟩ 0 P =
      (gibbs_removal (swapaxesT ⟨[X, Y, Z], d⟩ 0 2) 2 P).map
        (fun w => swapaxesT w 0 2) :=
  bind_map_swap_eq (weightsE Z Y) _ _ (fun _ => rfl)

end Gibbs

end
